import Mathlib

/-!
Verification of the westCoast cycling-visualization repository.

The repository ships a React/TypeScript front-end (MapView, Dashboard,
PhotoModal, App, TimelineScrubber, types.ts) together with documentation of
an offline Python pipeline (Track Parser, Track Enricher, Photo Matcher).
The Python pipeline sources (process_rides.py, match_photos.py) are not part
of the checked-in sources here, so the pipeline is modelled from the spec;
the front-end components are embedded from their TypeScript sources.

Numbers are modelled as exact rationals (ℚ), timestamps as integers (epoch
seconds).  The great-circle distance formula is abstracted as a parameter,
since only its non-negativity matters for the claims.
-/

/-- One GPS fix decoded by the Track Parser: latitude and longitude in
degrees, elevation in meters, timestamp in epoch seconds, optional heart
rate and power. -/
structure TrackPoint where
  lat : ℚ
  lon : ℚ
  ele : ℚ
  time : ℤ
  hr : Option ℚ
  power : Option ℚ
  deriving DecidableEq, Repr

/-- A track point enriched with cumulative distance (km), instantaneous
speed (km/h) and gradient (%), mirroring the RoutePoint shape of
src/lib/types.ts. -/
structure EnrichedTrackPoint where
  lat : ℚ
  lon : ℚ
  ele : ℚ
  time : ℤ
  hr : Option ℚ
  power : Option ℚ
  speed : ℚ
  distance : ℚ
  gradient : ℚ
  deriving DecidableEq, Repr

/-- The underlying GPS fix of an enriched point. -/
def EnrichedTrackPoint.toTP (e : EnrichedTrackPoint) : TrackPoint :=
  ⟨e.lat, e.lon, e.ele, e.time, e.hr, e.power⟩

/-- Earliest index of the minimum of a list, together with the minimum
value.  Returns none exactly on the empty list.  This is the nearest-
neighbour selection rule shared by the GPS match and the timestamp match:
minimize the cost, break ties toward the earliest index. -/
def minIdxVal {α : Type} [LinearOrder α] : List α → Option (ℕ × α)
  | [] => none
  | c :: cs =>
    match minIdxVal cs with
    | none => some (0, c)
    | some (j, m) => if c ≤ m then some (0, c) else some (j + 1, m)

/-- The specification of an earliest-minimum position: the value sits at
the index, every value in the list is at least the minimum, and every value
strictly before the index is strictly larger. -/
def IsEarliestMin {α : Type} [LinearOrder α] (cs : List α) (i : ℕ) (m : α) : Prop :=
  cs[i]? = some m ∧
  (∀ (j : ℕ) (v : α), cs[j]? = some v → m ≤ v) ∧
  (∀ (j : ℕ) (v : α), j < i → cs[j]? = some v → m < v)

theorem minIdxVal_eq_none {α : Type} [LinearOrder α] (cs : List α) :
    minIdxVal cs = none ↔ cs = [] := by
  cases cs with
  | nil => simp [minIdxVal]
  | cons c cs =>
    simp only [minIdxVal]
    cases h : minIdxVal cs with
    | none => simp
    | some jm =>
      obtain ⟨j, m⟩ := jm
      by_cases hc : c ≤ m <;> simp [hc]

theorem minIdxVal_isEarliestMin {α : Type} [LinearOrder α] :
    ∀ (cs : List α) (i : ℕ) (m : α), minIdxVal cs = some (i, m) → IsEarliestMin cs i m := by
  intro cs
  induction cs with
  | nil => intro i m h; simp [minIdxVal] at h
  | cons c cs ih =>
    intro i m h
    simp only [minIdxVal] at h
    cases hrec : minIdxVal cs with
    | none =>
      rw [hrec] at h
      simp only [Option.some.injEq, Prod.mk.injEq] at h
      obtain ⟨rfl, rfl⟩ := h
      have hnil : cs = [] := (minIdxVal_eq_none cs).mp hrec
      subst hnil
      refine ⟨by simp, ?_, ?_⟩
      · intro j v hj
        cases j with
        | zero =>
          simp only [List.getElem?_cons_zero, Option.some.injEq] at hj
          exact le_of_eq hj
        | succ j => simp at hj
      · intro j v hj
        omega
    | some jm =>
      obtain ⟨j0, m0⟩ := jm
      rw [hrec] at h
      obtain ⟨hat, hmin, hstrict⟩ := ih j0 m0 hrec
      by_cases hc : c ≤ m0
      · simp only [if_pos hc, Option.some.injEq, Prod.mk.injEq] at h
        obtain ⟨rfl, rfl⟩ := h
        refine ⟨by simp, ?_, ?_⟩
        · intro j v hj
          cases j with
          | zero =>
            simp only [List.getElem?_cons_zero, Option.some.injEq] at hj
            exact le_of_eq hj
          | succ j =>
            simp only [List.getElem?_cons_succ] at hj
            exact le_trans hc (hmin j v hj)
        · intro j v hj
          omega
      · simp only [if_neg hc, Option.some.injEq, Prod.mk.injEq] at h
        obtain ⟨rfl, rfl⟩ := h
        refine ⟨by simpa using hat, ?_, ?_⟩
        · intro j v hj
          cases j with
          | zero =>
            simp only [List.getElem?_cons_zero, Option.some.injEq] at hj
            subst hj
            exact le_of_lt (lt_of_not_le hc)
          | succ j =>
            simp only [List.getElem?_cons_succ] at hj
            exact hmin j v hj
        · intro j v hj hjat
          cases j with
          | zero =>
            simp only [List.getElem?_cons_zero, Option.some.injEq] at hjat
            subst hjat
            exact lt_of_not_le hc
          | succ j =>
            simp only [List.getElem?_cons_succ] at hjat
            exact hstrict j v (by omega) hjat

theorem IsEarliestMin.unique {α : Type} [LinearOrder α] {cs : List α}
    {i j : ℕ} {m m' : α} (hi : IsEarliestMin cs i m) (hj : IsEarliestMin cs j m') :
    i = j ∧ m = m' := by
  obtain ⟨hati, hmini, hstricti⟩ := hi
  obtain ⟨hatj, hminj, hstrictj⟩ := hj
  rcases lt_trichotomy i j with hlt | heq | hgt
  · exact absurd (hmini j m' hatj) (not_le_of_lt (hstrictj i m hlt hati))
  · subst heq
    rw [hati] at hatj
    exact ⟨rfl, Option.some.inj hatj⟩
  · exact absurd (hminj i m hati) (not_le_of_lt (hstricti j m' hgt hatj))

theorem minIdxVal_isSome {α : Type} [LinearOrder α] {cs : List α} (h : cs ≠ []) :
    ∃ i m, minIdxVal cs = some (i, m) := by
  cases hmv : minIdxVal cs with
  | none => exact absurd ((minIdxVal_eq_none cs).mp hmv) h
  | some im => exact ⟨im.1, im.2, by simp [hmv]⟩

theorem IsEarliestMin.idx_lt_length {α : Type} [LinearOrder α] {cs : List α}
    {i : ℕ} {m : α} (h : IsEarliestMin cs i m) : i < cs.length := by
  obtain ⟨hat, -, -⟩ := h
  exact (List.getElem?_eq_some.mp hat).1

/-- Small horizontal-distance epsilon below which the gradient is defined
as 0, per the enricher contract. -/
def gradEps : ℚ := 1 / 1000000

/-- Modelled from the spec: the Track Enricher of the Python pipeline
(data-processing/process_rides.py, absent from the checked-in sources).
Processes the tail of the track given the previous original point and the
cumulative distance so far.  The great-circle distance formula is the
parameter d (in km).  Speed is distance delta over time delta converted to
km/h, defined as 0 when the time delta is zero or negative; gradient is
elevation change over horizontal distance, defined as 0 when the
horizontal distance is below gradEps. -/
def enrichFrom (d : TrackPoint → TrackPoint → ℚ) (prev : TrackPoint) (cum : ℚ) :
    List TrackPoint → List EnrichedTrackPoint
  | [] => []
  | p :: rest =>
    ⟨p.lat, p.lon, p.ele, p.time, p.hr, p.power,
      if p.time - prev.time ≤ 0 then 0 else d prev p / ((p.time - prev.time : ℤ) : ℚ) * 3600,
      cum + d prev p,
      if d prev p < gradEps then 0 else (p.ele - prev.ele) / (d prev p * 1000) * 100⟩ ::
    enrichFrom d p (cum + d prev p) rest

/-- Modelled from the spec: the Track Enricher entry point.  The first
point gets cumulative distance 0.0 and speed 0 (no preceding interval). -/
def enrich (d : TrackPoint → TrackPoint → ℚ) : List TrackPoint → List EnrichedTrackPoint
  | [] => []
  | p :: rest => ⟨p.lat, p.lon, p.ele, p.time, p.hr, p.power, 0, 0, 0⟩ :: enrichFrom d p 0 rest

theorem enrichFrom_map_toTP (d : TrackPoint → TrackPoint → ℚ) :
    ∀ (rest : List TrackPoint) (prev : TrackPoint) (cum : ℚ),
      (enrichFrom d prev cum rest).map EnrichedTrackPoint.toTP = rest := by
  intro rest
  induction rest with
  | nil => intro prev cum; rfl
  | cons p rest ih =>
    intro prev cum
    simp only [enrichFrom, List.map_cons, ih]
    rfl

/-- The Enricher preserves the underlying fixes, their number and their
order. -/
theorem enrich_map_toTP (d : TrackPoint → TrackPoint → ℚ) (ts : List TrackPoint) :
    (enrich d ts).map EnrichedTrackPoint.toTP = ts := by
  cases ts with
  | nil => rfl
  | cons p rest =>
    simp only [enrich, List.map_cons, enrichFrom_map_toTP]
    rfl

theorem enrichFrom_chain_dist (d : TrackPoint → TrackPoint → ℚ) :
    ∀ (rest : List TrackPoint) (prev : TrackPoint) (cum : ℚ) (e : EnrichedTrackPoint),
      e.toTP = prev → e.distance = cum →
      List.Chain' (fun a b => b.distance = a.distance + d a.toTP b.toTP)
        (e :: enrichFrom d prev cum rest) := by
  intro rest
  induction rest with
  | nil => intro prev cum e _ _; simp [enrichFrom]
  | cons p rest ih =>
    intro prev cum e htp hdist
    simp only [enrichFrom]
    refine List.Chain'.cons ?_ (ih p (cum + d prev p) _ rfl rfl)
    show cum + d prev p = e.distance + d e.toTP p
    rw [htp, hdist]

theorem enrichFrom_chain_speed (d : TrackPoint → TrackPoint → ℚ) :
    ∀ (rest : List TrackPoint) (prev : TrackPoint) (cum : ℚ) (e : EnrichedTrackPoint),
      e.time = prev.time →
      List.Chain' (fun a b => b.time ≤ a.time → b.speed = 0)
        (e :: enrichFrom d prev cum rest) := by
  intro rest
  induction rest with
  | nil => intro prev cum e _; simp [enrichFrom]
  | cons p rest ih =>
    intro prev cum e htime
    simp only [enrichFrom]
    refine List.Chain'.cons ?_ (ih p (cum + d prev p) _ rfl)
    intro hle
    show (if p.time - prev.time ≤ 0 then 0
        else d prev p / ((p.time - prev.time : ℤ) : ℚ) * 3600) = 0
    have : p.time - prev.time ≤ 0 := by
      have : p.time ≤ e.time := hle
      omega
    simp [this]

theorem enrichFrom_speed_nonneg (d : TrackPoint → TrackPoint → ℚ)
    (hd : ∀ a b, 0 ≤ d a b) :
    ∀ (rest : List TrackPoint) (prev : TrackPoint) (cum : ℚ),
      ∀ e ∈ enrichFrom d prev cum rest, 0 ≤ e.speed := by
  intro rest
  induction rest with
  | nil => intro prev cum e he; simp [enrichFrom] at he
  | cons p rest ih =>
    intro prev cum e he
    simp only [enrichFrom, List.mem_cons] at he
    rcases he with rfl | he
    · show 0 ≤ if p.time - prev.time ≤ 0 then 0
        else d prev p / ((p.time - prev.time : ℤ) : ℚ) * 3600
      by_cases hdt : p.time - prev.time ≤ 0
      · simp [hdt]
      · have hpos : (0 : ℚ) < ((p.time - prev.time : ℤ) : ℚ) := by
          have : 0 < p.time - prev.time := by omega
          exact_mod_cast this
        have := div_nonneg (hd prev p) (le_of_lt hpos)
        simp only [if_neg hdt]
        nlinarith
    · exact ih p (cum + d prev p) e he

/-- A concrete non-negative distance function used to instantiate the
abstracted great-circle distance in witnesses. -/
def absDist (a b : TrackPoint) : ℚ := |a.lat - b.lat| + |a.lon - b.lon|

/-- Sample fix at the origin. -/
def tpA : TrackPoint := ⟨0, 0, 0, 0, none, none⟩

/-- Sample fix one degree north, 10 seconds later, 10 m higher. -/
def tpB : TrackPoint := ⟨1, 0, 10, 10, none, none⟩

/-- C3: for every input TrackPoint sequence, the Track Enricher's output
distance sequence starts at 0.0 at the first point, accumulates the
great-circle distance d between consecutive coordinates, and is
non-decreasing, provided d is non-negative (as any great-circle distance
is). -/
theorem C3_enricher_distance (d : TrackPoint → TrackPoint → ℚ)
    (hd : ∀ a b, 0 ≤ d a b) (ts : List TrackPoint) :
    (∀ e0, (enrich d ts).head? = some e0 → e0.distance = 0) ∧
    List.Chain' (fun a b => b.distance = a.distance + d a.toTP b.toTP) (enrich d ts) ∧
    List.Chain' (fun a b => a.distance ≤ b.distance) (enrich d ts) := by
  have hchain : List.Chain'
      (fun a b => b.distance = a.distance + d a.toTP b.toTP) (enrich d ts) := by
    cases ts with
    | nil => simp [enrich]
    | cons p rest => exact enrichFrom_chain_dist d rest p 0 _ rfl rfl
  refine ⟨?_, hchain, ?_⟩
  · intro e0 h
    cases ts with
    | nil => simp [enrich] at h
    | cons p rest =>
      simp only [enrich, List.head?_cons, Option.some.injEq] at h
      rw [← h]
  · refine hchain.imp ?_
    intro a b hab
    rw [hab]
    exact le_add_of_nonneg_right (hd _ _)

theorem C3_enricher_distance_witness :
    (∀ a b, 0 ≤ absDist a b) ∧
    ((∀ e0, (enrich absDist [tpA, tpB]).head? = some e0 → e0.distance = 0) ∧
      List.Chain'
        (fun a b => b.distance = a.distance + absDist a.toTP b.toTP)
        (enrich absDist [tpA, tpB]) ∧
      List.Chain' (fun a b => a.distance ≤ b.distance) (enrich absDist [tpA, tpB])) :=
  ⟨fun a b => add_nonneg (abs_nonneg _) (abs_nonneg _),
    C3_enricher_distance absDist
      (fun a b => add_nonneg (abs_nonneg _) (abs_nonneg _)) [tpA, tpB]⟩

/-- C4: every speed value the Track Enricher outputs is non-negative, the
first point's speed is 0, and whenever the time delta between a point and
its predecessor is zero or negative the speed at that point is defined to
be 0.  In this exact-rational model the guarded definition never divides
by a non-positive time delta, so no infinity or NaN can arise. -/
theorem C4_enricher_speed (d : TrackPoint → TrackPoint → ℚ)
    (hd : ∀ a b, 0 ≤ d a b) (ts : List TrackPoint) :
    (∀ e0, (enrich d ts).head? = some e0 → e0.speed = 0) ∧
    (∀ e ∈ enrich d ts, 0 ≤ e.speed) ∧
    List.Chain' (fun a b => b.time ≤ a.time → b.speed = 0) (enrich d ts) := by
  refine ⟨?_, ?_, ?_⟩
  · intro e0 h
    cases ts with
    | nil => simp [enrich] at h
    | cons p rest =>
      simp only [enrich, List.head?_cons, Option.some.injEq] at h
      rw [← h]
  · intro e he
    cases ts with
    | nil => simp [enrich] at he
    | cons p rest =>
      simp only [enrich, List.mem_cons] at he
      rcases he with rfl | he
      · exact le_refl 0
      · exact enrichFrom_speed_nonneg d hd rest p 0 e he
  · cases ts with
    | nil => simp [enrich]
    | cons p rest => exact enrichFrom_chain_speed d rest p 0 _ rfl

theorem C4_enricher_speed_witness :
    (∀ a b, 0 ≤ absDist a b) ∧
    ((∀ e0, (enrich absDist [tpA, tpB]).head? = some e0 → e0.speed = 0) ∧
      (∀ e ∈ enrich absDist [tpA, tpB], 0 ≤ e.speed) ∧
      List.Chain' (fun a b => b.time ≤ a.time → b.speed = 0)
        (enrich absDist [tpA, tpB])) :=
  ⟨fun a b => add_nonneg (abs_nonneg _) (abs_nonneg _),
    C4_enricher_speed absDist
      (fun a b => add_nonneg (abs_nonneg _) (abs_nonneg _)) [tpA, tpB]⟩

/-- The snapshot of ride statistics stored on a matched photo, mirroring
RideStats of src/lib/types.ts: optional heart rate and power, required
speed, elevation and distance. -/
structure RideStats where
  hr : Option ℚ
  power : Option ℚ
  speed : ℚ
  elevation : ℚ
  distance : ℚ
  deriving DecidableEq, Repr

/-- A candidate photo before matching: filename, EXIF capture timestamp
(epoch seconds) and optional EXIF GPS coordinate. -/
structure PhotoIn where
  filename : String
  timestamp : ℤ
  gps : Option (ℚ × ℚ)
  deriving DecidableEq, Repr

/-- A matched photo, mirroring Photo of src/lib/types.ts: the routeIndex
points into the enriched track and stats is the snapshot at that index. -/
structure Photo where
  filename : String
  timestamp : ℤ
  location : Option (ℚ × ℚ)
  routeIndex : ℕ
  stats : RideStats
  deriving DecidableEq, Repr

/-- GPS proximity threshold for the primary match, in meters. -/
def proximityThreshold : ℚ := 100

/-- Timestamp eligibility window around the ride's span, in seconds. -/
def photoWindow : ℤ := 7200

/-- Modelled from the spec: per-trackpoint great-circle distances (meters)
from the photo's coordinate, in track order.  The great-circle formula is
the parameter dg. -/
def gpsCosts (dg : ℚ × ℚ → ℚ × ℚ → ℚ) (track : List EnrichedTrackPoint)
    (g : ℚ × ℚ) : List ℚ :=
  track.map (fun tp => dg g (tp.lat, tp.lon))

/-- Modelled from the spec: per-trackpoint absolute time differences from
the photo's capture timestamp, in track order. -/
def timeCosts (track : List EnrichedTrackPoint) (t : ℤ) : List ℤ :=
  track.map (fun tp => |tp.time - t|)

/-- Modelled from the spec: the timestamp gate.  A photo is eligible for a
ride only if its capture time falls within photoWindow of the ride's
start/end span. -/
def passesGate (track : List EnrichedTrackPoint) (t : ℤ) : Bool :=
  match track.head?, track.getLast? with
  | some h, some l => decide (h.time - photoWindow ≤ t) && decide (t ≤ l.time + photoWindow)
  | _, _ => false

/-- The ride-statistics snapshot at one enriched trackpoint; optional
fields stay absent if absent at that point. -/
def statsAt (tp : EnrichedTrackPoint) : RideStats :=
  ⟨tp.hr, tp.power, tp.speed, tp.ele, tp.distance⟩

/-- Modelled from the spec: build the emitted Photo record for a chosen
routeIndex, copying the stats directly from that enriched trackpoint. -/
def mkPhoto (track : List EnrichedTrackPoint) (p : PhotoIn) (i : ℕ) : Photo :=
  ⟨p.filename, p.timestamp, p.gps, i,
    match track[i]? with
    | some tp => statsAt tp
    | none => ⟨none, none, 0, 0, 0⟩⟩

/-- Modelled from the spec: the timestamp fallback match, choosing the
trackpoint whose timestamp is closest to the capture timestamp, earliest
index on ties, accepted unconditionally. -/
def timeFallback (track : List EnrichedTrackPoint) (p : PhotoIn) : Option Photo :=
  match minIdxVal (timeCosts track p.timestamp) with
  | some (i, _) => some (mkPhoto track p i)
  | none => none

/-- Modelled from the spec: the Photo Matcher for one photo
(data-processing/match_photos.py, absent from the checked-in sources).
Gate by timestamp window first; then primary GPS match accepted only
within proximityThreshold, otherwise (or when GPS is absent) the
timestamp fallback. -/
def matchPhoto (dg : ℚ × ℚ → ℚ × ℚ → ℚ) (track : List EnrichedTrackPoint)
    (p : PhotoIn) : Option Photo :=
  if passesGate track p.timestamp then
    match p.gps with
    | some g =>
      match minIdxVal (gpsCosts dg track g) with
      | some (i, m) =>
        if m ≤ proximityThreshold then some (mkPhoto track p i)
        else timeFallback track p
      | none => timeFallback track p
    | none => timeFallback track p
  else none

/-- Insert a photo into a list ordered by ascending routeIndex. -/
def insertByIdx (p : Photo) : List Photo → List Photo
  | [] => [p]
  | q :: qs => if p.routeIndex ≤ q.routeIndex then p :: q :: qs else q :: insertByIdx p qs

/-- Sort photos by ascending routeIndex (insertion sort). -/
def sortByIdx : List Photo → List Photo
  | [] => []
  | p :: ps => insertByIdx p (sortByIdx ps)

/-- Modelled from the spec: the Photo Matcher for a ride.  Photos with no
plausible match are dropped (filterMap) and the result is sorted ascending
by routeIndex. -/
def matchPhotos (dg : ℚ × ℚ → ℚ × ℚ → ℚ) (track : List EnrichedTrackPoint)
    (ps : List PhotoIn) : List Photo :=
  sortByIdx (ps.filterMap (matchPhoto dg track))

theorem mem_insertByIdx {a p : Photo} :
    ∀ {l : List Photo}, a ∈ insertByIdx p l ↔ a = p ∨ a ∈ l := by
  intro l
  induction l with
  | nil => simp [insertByIdx]
  | cons q qs ih =>
    simp only [insertByIdx]
    by_cases h : p.routeIndex ≤ q.routeIndex
    · simp [h]
    · simp only [if_neg h, List.mem_cons, ih]
      tauto

theorem pairwise_insertByIdx {p : Photo} :
    ∀ {l : List Photo},
      List.Pairwise (fun a b => a.routeIndex ≤ b.routeIndex) l →
      List.Pairwise (fun a b => a.routeIndex ≤ b.routeIndex) (insertByIdx p l) := by
  intro l
  induction l with
  | nil => intro _; simp [insertByIdx]
  | cons q qs ih =>
    intro h
    rw [List.pairwise_cons] at h
    obtain ⟨hq, hqs⟩ := h
    simp only [insertByIdx]
    by_cases hpq : p.routeIndex ≤ q.routeIndex
    · rw [if_pos hpq, List.pairwise_cons]
      refine ⟨?_, List.pairwise_cons.mpr ⟨hq, hqs⟩⟩
      intro b hb
      rcases List.mem_cons.mp hb with rfl | hb
      · exact hpq
      · exact le_trans hpq (hq b hb)
    · rw [if_neg hpq, List.pairwise_cons]
      refine ⟨?_, ih hqs⟩
      intro b hb
      rcases mem_insertByIdx.mp hb with rfl | hb
      · exact le_of_not_le hpq
      · exact hq b hb

theorem pairwise_sortByIdx :
    ∀ (l : List Photo),
      List.Pairwise (fun a b => a.routeIndex ≤ b.routeIndex) (sortByIdx l) := by
  intro l
  induction l with
  | nil => simp [sortByIdx]
  | cons p ps ih => exact pairwise_insertByIdx ih

theorem mem_sortByIdx {a : Photo} :
    ∀ {l : List Photo}, a ∈ sortByIdx l ↔ a ∈ l := by
  intro l
  induction l with
  | nil => simp [sortByIdx]
  | cons p ps ih =>
    simp only [sortByIdx, mem_insertByIdx, List.mem_cons, ih]

theorem passesGate_ne_nil {track : List EnrichedTrackPoint} {t : ℤ}
    (h : passesGate track t = true) : track ≠ [] := by
  intro hnil
  subst hnil
  simp [passesGate] at h

theorem timeCosts_eq_nil {track : List EnrichedTrackPoint} {t : ℤ} :
    timeCosts track t = [] ↔ track = [] := by
  simp [timeCosts]

theorem gpsCosts_eq_nil {dg : ℚ × ℚ → ℚ × ℚ → ℚ} {track : List EnrichedTrackPoint}
    {g : ℚ × ℚ} : gpsCosts dg track g = [] ↔ track = [] := by
  simp [gpsCosts]

theorem timeFallback_isSome {track : List EnrichedTrackPoint} (p : PhotoIn)
    (h : track ≠ []) : ∃ ph, timeFallback track p = some ph := by
  have hne : timeCosts track p.timestamp ≠ [] := fun hc => h (timeCosts_eq_nil.mp hc)
  obtain ⟨i, m, hm⟩ := minIdxVal_isSome hne
  exact ⟨mkPhoto track p i, by simp [timeFallback, hm]⟩

theorem timeFallback_spec {track : List EnrichedTrackPoint} {p : PhotoIn} {ph : Photo}
    (h : timeFallback track p = some ph) :
    ∃ m, IsEarliestMin (timeCosts track p.timestamp) ph.routeIndex m := by
  unfold timeFallback at h
  cases hm : minIdxVal (timeCosts track p.timestamp) with
  | none => rw [hm] at h; simp at h
  | some im =>
    obtain ⟨i, m⟩ := im
    rw [hm] at h
    simp only [Option.some.injEq] at h
    refine ⟨m, ?_⟩
    have : ph.routeIndex = i := by rw [← h]; rfl
    rw [this]
    exact minIdxVal_isEarliestMin _ i m hm

/-- C1: for every photo that passes the timestamp gate, the Photo Matcher
selects its routeIndex by the documented rule.  With GPS, the earliest
index minimizing great-circle distance (parameter dg) is chosen and
accepted only when that minimum is at most proximityThreshold, exact ties
resolved to the earliest index; when GPS is absent or the minimum exceeds
the threshold, the earliest index minimizing the absolute time difference
to the capture timestamp is chosen, accepted unconditionally. -/
theorem C1_photo_matcher_rule (dg : ℚ × ℚ → ℚ × ℚ → ℚ)
    (track : List EnrichedTrackPoint) (p : PhotoIn) :
    (passesGate track p.timestamp = true → ∃ ph, matchPhoto dg track p = some ph) ∧
    (∀ ph, matchPhoto dg track p = some ph →
      passesGate track p.timestamp = true ∧
      ((∃ g i m, p.gps = some g ∧ IsEarliestMin (gpsCosts dg track g) i m ∧
          ((m ≤ proximityThreshold ∧ ph.routeIndex = i) ∨
           (proximityThreshold < m ∧
             ∃ mt, IsEarliestMin (timeCosts track p.timestamp) ph.routeIndex mt))) ∨
       (p.gps = none ∧
         ∃ mt, IsEarliestMin (timeCosts track p.timestamp) ph.routeIndex mt))) := by
  constructor
  · intro hgate
    have hne := passesGate_ne_nil hgate
    obtain ⟨phf, hphf⟩ := timeFallback_isSome p hne
    unfold matchPhoto
    rw [hgate, if_pos rfl]
    split
    · split
      · split
        · exact ⟨_, rfl⟩
        · exact ⟨phf, hphf⟩
      · exact ⟨phf, hphf⟩
    · exact ⟨phf, hphf⟩
  · intro ph h
    unfold matchPhoto at h
    by_cases hgate : passesGate track p.timestamp = true
    · refine ⟨hgate, ?_⟩
      rw [hgate, if_pos rfl] at h
      split at h
      · rename_i g hg
        split at h
        · rename_i im i m hm
          have hspec := minIdxVal_isEarliestMin _ i m hm
          split at h
          · rename_i hthr
            simp only [Option.some.injEq] at h
            refine Or.inl ⟨g, i, m, hg, hspec, Or.inl ⟨hthr, ?_⟩⟩
            rw [← h]
            rfl
          · rename_i hthr
            exact Or.inl ⟨g, i, m, hg, hspec,
              Or.inr ⟨lt_of_not_le hthr, timeFallback_spec h⟩⟩
        · rename_i hm
          exfalso
          have hnil : gpsCosts dg track g = [] := (minIdxVal_eq_none _).mp hm
          exact passesGate_ne_nil hgate (gpsCosts_eq_nil.mp hnil)
      · rename_i hg
        exact Or.inr ⟨hg, timeFallback_spec h⟩
    · rw [eq_false_of_ne_true hgate] at h
      simp at h

theorem timeFallback_routeIndex_lt {track : List EnrichedTrackPoint} {p : PhotoIn}
    {ph : Photo} (h : timeFallback track p = some ph) :
    ph.routeIndex < track.length := by
  obtain ⟨m, hm⟩ := timeFallback_spec h
  have := hm.idx_lt_length
  simpa [timeCosts] using this

theorem matchPhoto_routeIndex_lt {dg : ℚ × ℚ → ℚ × ℚ → ℚ}
    {track : List EnrichedTrackPoint} {p : PhotoIn} {ph : Photo}
    (h : matchPhoto dg track p = some ph) : ph.routeIndex < track.length := by
  unfold matchPhoto at h
  by_cases hgate : passesGate track p.timestamp = true
  · rw [hgate, if_pos rfl] at h
    split at h
    · split at h
      · split at h
        · rename_i im i m hm hthr
          simp only [Option.some.injEq] at h
          have hlt := (minIdxVal_isEarliestMin _ i m hm).idx_lt_length
          rw [← h]
          simpa [gpsCosts] using hlt
        · exact timeFallback_routeIndex_lt h
      · exact timeFallback_routeIndex_lt h
    · exact timeFallback_routeIndex_lt h
  · rw [eq_false_of_ne_true hgate] at h
    simp at h

/-- C2: a photo whose capture time falls outside the ±2 h window around
the ride's start/end span is not matched and is discarded from the batch
before any spatial matching, whatever its GPS coordinate (the statement
holds for every photo, in particular one whose coordinate lies exactly on
the route). -/
theorem C2_timestamp_gate (dg : ℚ × ℚ → ℚ × ℚ → ℚ) (track : List EnrichedTrackPoint)
    (p : PhotoIn) (ps : List PhotoIn) (h0 hN : EnrichedTrackPoint)
    (hh : track.head? = some h0) (hl : track.getLast? = some hN)
    (hout : p.timestamp < h0.time - photoWindow ∨ hN.time + photoWindow < p.timestamp) :
    matchPhoto dg track p = none ∧
    matchPhotos dg track (p :: ps) = matchPhotos dg track ps := by
  have hgate : passesGate track p.timestamp = false := by
    unfold passesGate
    rw [hh, hl]
    dsimp only
    rcases hout with h1 | h1 <;> simp <;> omega
  have hnone : matchPhoto dg track p = none := by
    simp [matchPhoto, hgate]
  refine ⟨hnone, ?_⟩
  simp [matchPhotos, List.filterMap_cons, hnone]

/-- C5: every Photo record in a ride's emitted photo set carries a
routeIndex that is in bounds for the enriched track, and the set is
exactly the input photos for which the matcher found a position; an
unmatched photo contributes nothing. -/
theorem C5_photo_set_valid (dg : ℚ × ℚ → ℚ × ℚ → ℚ)
    (track : List EnrichedTrackPoint) (ps : List PhotoIn) :
    (∀ ph ∈ matchPhotos dg track ps, ph.routeIndex < track.length) ∧
    (∀ ph, ph ∈ matchPhotos dg track ps ↔ ∃ q ∈ ps, matchPhoto dg track q = some ph) := by
  constructor
  · intro ph hph
    unfold matchPhotos at hph
    replace hph := mem_sortByIdx.mp hph
    obtain ⟨q, hq, hmq⟩ := List.mem_filterMap.mp hph
    exact matchPhoto_routeIndex_lt hmq
  · intro ph
    unfold matchPhotos
    rw [mem_sortByIdx, List.mem_filterMap]

/-- C6: the emitted Photo set of a ride is sorted ascending by routeIndex,
so downstream consumers may assume chronological order along the route. -/
theorem C6_photos_sorted_by_routeIndex (dg : ℚ × ℚ → ℚ × ℚ → ℚ)
    (track : List EnrichedTrackPoint) (ps : List PhotoIn) :
    List.Pairwise (fun a b => a.routeIndex ≤ b.routeIndex) (matchPhotos dg track ps) :=
  pairwise_sortByIdx _

/-- Modelled from the spec: the matching rule for one photo, stated as a
relation on the chosen index (the photo passes the gate, and the index is
either the accepted earliest GPS minimum within threshold, or the earliest
timestamp minimum when GPS is absent or its minimum exceeds the
threshold). -/
def MatchIndexSpec (dg : ℚ × ℚ → ℚ × ℚ → ℚ) (track : List EnrichedTrackPoint)
    (p : PhotoIn) (i : ℕ) : Prop :=
  passesGate track p.timestamp = true ∧
  ((∃ g m, p.gps = some g ∧ IsEarliestMin (gpsCosts dg track g) i m ∧
      m ≤ proximityThreshold) ∨
   ((p.gps = none ∨
      ∃ g i0 m0, p.gps = some g ∧ IsEarliestMin (gpsCosts dg track g) i0 m0 ∧
        proximityThreshold < m0) ∧
    ∃ mt, IsEarliestMin (timeCosts track p.timestamp) i mt))

/-- C8: the Photo Matcher is deterministic.  The matching rule admits at
most one index for a given enriched track and photo, so identical inputs
always yield identical routeIndex assignments; the match set itself is a
pure function of the inputs (matchPhotos), with no randomness and no
hidden iteration state. -/
theorem C8_matcher_deterministic (dg : ℚ × ℚ → ℚ × ℚ → ℚ)
    (track : List EnrichedTrackPoint) (p : PhotoIn) (i j : ℕ)
    (hi : MatchIndexSpec dg track p i) (hj : MatchIndexSpec dg track p j) : i = j := by
  obtain ⟨-, hi⟩ := hi
  obtain ⟨-, hj⟩ := hj
  rcases hi with ⟨g, m, hg, hmin, hthr⟩ | ⟨hfail, mt, htime⟩
  · rcases hj with ⟨g2, m2, hg2, hmin2, hthr2⟩ | ⟨hfail2, mt2, htime2⟩
    · rw [hg] at hg2
      obtain rfl := Option.some.inj hg2
      exact (IsEarliestMin.unique hmin hmin2).1
    · exfalso
      rcases hfail2 with hnone | ⟨g2, i0, m0, hg2, hmin0, hthr0⟩
      · rw [hg] at hnone
        exact Option.noConfusion hnone
      · rw [hg] at hg2
        obtain rfl := Option.some.inj hg2
        have hmm := (IsEarliestMin.unique hmin hmin0).2
        rw [← hmm] at hthr0
        exact absurd hthr (not_le_of_lt hthr0)
  · rcases hj with ⟨g2, m2, hg2, hmin2, hthr2⟩ | ⟨hfail2, mt2, htime2⟩
    · exfalso
      rcases hfail with hnone | ⟨g, i0, m0, hg, hmin0, hthr0⟩
      · rw [hg2] at hnone
        exact Option.noConfusion hnone
      · rw [hg2] at hg
        obtain rfl := Option.some.inj hg
        have hmm := (IsEarliestMin.unique hmin2 hmin0).2
        rw [← hmm] at hthr0
        exact absurd hthr2 (not_le_of_lt hthr0)
    · exact (IsEarliestMin.unique htime htime2).1

/-- Concrete discrete metric standing in for the great-circle distance in
witnesses: 0 at the exact coordinate, 101 m elsewhere. -/
def dgW : ℚ × ℚ → ℚ × ℚ → ℚ := fun a b => if a = b then 0 else 101

/-- First point of the witness track. -/
def eW0 : EnrichedTrackPoint := ⟨0, 0, 0, 0, none, none, 0, 0, 0⟩

/-- Second point of the witness track. -/
def eW1 : EnrichedTrackPoint := ⟨1, 0, 10, 10, none, none, 360, 1, 1⟩

/-- Concrete two-point enriched track for witnesses. -/
def trackW : List EnrichedTrackPoint := [eW0, eW1]

/-- A photo taken 3 s into the ride, with GPS at the first trackpoint. -/
def pW : PhotoIn := ⟨"photo1.jpg", 3, some (0, 0)⟩

/-- The match the pipeline emits for pW on trackW. -/
def phW : Photo := mkPhoto trackW pW 0

/-- A photo 3 h after the ride's end, with GPS exactly on the route. -/
def pLate : PhotoIn := ⟨"photo2.jpg", 10810, some (0, 0)⟩

theorem C1_photo_matcher_rule_witness :
    matchPhoto dgW trackW pW = some phW ∧
    (passesGate trackW pW.timestamp = true ∧
      ((∃ g i m, pW.gps = some g ∧ IsEarliestMin (gpsCosts dgW trackW g) i m ∧
          ((m ≤ proximityThreshold ∧ phW.routeIndex = i) ∨
           (proximityThreshold < m ∧
             ∃ mt, IsEarliestMin (timeCosts trackW pW.timestamp) phW.routeIndex mt))) ∨
       (pW.gps = none ∧
         ∃ mt, IsEarliestMin (timeCosts trackW pW.timestamp) phW.routeIndex mt))) :=
  ⟨by decide, (C1_photo_matcher_rule dgW trackW pW).2 phW (by decide)⟩

theorem C2_timestamp_gate_witness :
    (trackW.head? = some eW0 ∧ trackW.getLast? = some eW1 ∧
      (pLate.timestamp < eW0.time - photoWindow ∨
        eW1.time + photoWindow < pLate.timestamp)) ∧
    (matchPhoto dgW trackW pLate = none ∧
      matchPhotos dgW trackW (pLate :: [pW]) = matchPhotos dgW trackW [pW]) :=
  ⟨⟨by decide, by decide, by decide⟩,
    C2_timestamp_gate dgW trackW pLate [pW] eW0 eW1 (by decide) (by decide) (by decide)⟩

theorem C5_photo_set_valid_witness :
    phW ∈ matchPhotos dgW trackW [pW] ∧ phW.routeIndex < trackW.length :=
  ⟨by decide, (C5_photo_set_valid dgW trackW [pW]).1 phW (by decide)⟩

theorem C8_matcher_deterministic_witness :
    MatchIndexSpec dgW trackW pW 0 ∧ (0 : ℕ) = 0 := by
  have hspec : MatchIndexSpec dgW trackW pW 0 :=
    ⟨by decide,
      Or.inl ⟨(0, 0), 0, rfl, minIdxVal_isEarliestMin _ 0 0 (by decide), by decide⟩⟩
  exact ⟨hspec, C8_matcher_deterministic dgW trackW pW 0 0 hspec hspec⟩

/-- Embedded from src/src/components/PhotoModal.tsx: the heart-rate panel
is rendered only when the field is neither undefined nor null (both JS
absence values map to none in this model). -/
def rendersHr (s : RideStats) : Bool :=
  match s.hr with
  | some _ => true
  | none => false

/-- Embedded from src/src/components/PhotoModal.tsx: the power panel is
rendered only when the field is neither undefined nor null. -/
def rendersPower (s : RideStats) : Bool :=
  match s.power with
  | some _ => true
  | none => false

/-- A ride summary, mirroring the summary shape of src/lib/types.ts:
avgHr and avgPower are optional, everything else is required. -/
structure RideSummary where
  distance : ℚ
  elevationGain : ℚ
  duration : ℚ
  avgSpeed : ℚ
  avgHr : Option ℚ
  avgPower : Option ℚ
  maxElevation : ℚ
  deriving DecidableEq, Repr

/-- Average of a list of samples, absent (none) when there are no
samples; never a sentinel number. -/
def avgOf (xs : List ℚ) : Option ℚ :=
  if xs.isEmpty then none else some (xs.sum / xs.length)

/-- Total positive elevation change over consecutive points. -/
def elevGain : List EnrichedTrackPoint → ℚ
  | a :: b :: rest => max 0 (b.ele - a.ele) + elevGain (b :: rest)
  | _ => 0

/-- Modelled from the spec: the ride Summary the pipeline emits
(process_rides.py, absent from the checked-in sources): total distance,
elevation gain, duration, average speed, average heart rate and power if
present (averaged over the points that carry the sensor value, absent
otherwise), and max elevation. -/
def summaryOf (track : List EnrichedTrackPoint) : RideSummary :=
  let dist := track.getLast?.elim 0 (fun e => e.distance)
  let dur : ℚ :=
    match track.head?, track.getLast? with
    | some h, some l => ((l.time - h.time : ℤ) : ℚ)
    | _, _ => 0
  ⟨dist, elevGain track, dur,
    if dur ≤ 0 then 0 else dist / dur,
    avgOf (track.filterMap (fun e => e.hr)),
    avgOf (track.filterMap (fun e => e.power)),
    track.foldr (fun e acc => max e.ele acc) 0⟩

theorem avgOf_eq_none_iff (xs : List ℚ) : avgOf xs = none ↔ xs = [] := by
  cases xs <;> simp [avgOf]

/-- C7: every optional field is absent as none (omission/null), never as a
sentinel number, and is rendered only when present.  Covers the PhotoModal
render guards for heart rate and power, the stat snapshot copied onto a
photo (absence propagates unchanged), the photo's GPS location (copied
verbatim from the optional EXIF coordinate, so no GPS means none, the
model of the location-or-null of src/lib/types.ts), and the ride summary,
whose avgHr and avgPower are none exactly when no trackpoint carries the
sensor value. -/
theorem C7_optional_absence (s : RideStats) (tp : EnrichedTrackPoint)
    (track : List EnrichedTrackPoint) (p : PhotoIn) (i : ℕ) :
    (rendersHr s = true ↔ ∃ v, s.hr = some v) ∧
    (rendersPower s = true ↔ ∃ v, s.power = some v) ∧
    (rendersHr s = false ↔ s.hr = none) ∧
    (rendersPower s = false ↔ s.power = none) ∧
    (statsAt tp).hr = tp.hr ∧ (statsAt tp).power = tp.power ∧
    (mkPhoto track p i).location = p.gps ∧
    ((summaryOf track).avgHr = none ↔ ∀ e ∈ track, e.hr = none) ∧
    ((summaryOf track).avgPower = none ↔ ∀ e ∈ track, e.power = none) := by
  refine ⟨?_, ?_, ?_, ?_, rfl, rfl, rfl, ?_, ?_⟩
  · cases hx : s.hr <;> simp [rendersHr, hx]
  · cases hy : s.power <;> simp [rendersPower, hy]
  · cases hx : s.hr <;> simp [rendersHr, hx]
  · cases hy : s.power <;> simp [rendersPower, hy]
  · show avgOf (track.filterMap (fun e => e.hr)) = none ↔ ∀ e ∈ track, e.hr = none
    rw [avgOf_eq_none_iff, List.filterMap_eq_nil]
  · show avgOf (track.filterMap (fun e => e.power)) = none ↔ ∀ e ∈ track, e.power = none
    rw [avgOf_eq_none_iff, List.filterMap_eq_nil]

/-- Embedded from src/App.tsx: the slice of App state that carries the
playhead invariant, a route length and the currentRouteIndex (a JS
number, modelled as ℤ so that out-of-range arithmetic is representable). -/
structure AppState where
  routeLen : ℕ
  idx : ℤ
  deriving DecidableEq, Repr

/-- Embedded from src/App.tsx (onSeekForward): min of prev plus
floor(route.length / 60) and route.length - 1. -/
def seekForward (s : AppState) : AppState :=
  ⟨s.routeLen, min (s.idx + ((s.routeLen / 60 : ℕ) : ℤ)) ((s.routeLen : ℤ) - 1)⟩

/-- Embedded from src/App.tsx (onSeekBackward): max of prev minus
floor(route.length / 60) and 0. -/
def seekBackward (s : AppState) : AppState :=
  ⟨s.routeLen, max (s.idx - ((s.routeLen / 60 : ℕ) : ℤ)) 0⟩

/-- Embedded from src/App.tsx: the reset effect sets the playhead to 0
when the selected ride changes. -/
def selectRide (len : ℕ) : AppState := ⟨len, 0⟩

/-- Embedded from src/App.tsx: the corrective effect resets the index to
max 0 (route.length - 1) whenever it is at least route.length. -/
def clampIndex (s : AppState) : AppState :=
  if (s.routeLen : ℤ) ≤ s.idx then ⟨s.routeLen, max 0 ((s.routeLen : ℤ) - 1)⟩ else s

/-- Embedded from src/App.tsx: one auto-play tick returns to 0 at the last
point and otherwise advances by one. -/
def autoTick (s : AppState) : AppState :=
  if (s.routeLen : ℤ) - 1 ≤ s.idx then ⟨s.routeLen, 0⟩ else ⟨s.routeLen, s.idx + 1⟩

/-- The playhead invariant: the current route index addresses a point of
the selected route. -/
def InBounds (s : AppState) : Prop :=
  0 ≤ s.idx ∧ s.idx ≤ (s.routeLen : ℤ) - 1

/-- C9: for a selected ride with a non-empty route, the current route
index stays within 0 and route.length - 1 across every state transition.
Ride change resets it to 0; seek-forward, the corrective effect and the
auto-play tick keep it in bounds from any non-negative index, so in
particular the corrective effect genuinely clamps an index that exceeds a
newly selected, shorter route (idx at least route.length); seek-backward
keeps an in-bounds index in bounds. -/
theorem C9_route_index_bounds (s : AppState) (len : ℕ)
    (hlen : 0 < len) (hpos : 0 < s.routeLen) (hlo : 0 ≤ s.idx) :
    InBounds (selectRide len) ∧
    InBounds (seekForward s) ∧
    InBounds (clampIndex s) ∧
    InBounds (autoTick s) ∧
    (s.idx ≤ (s.routeLen : ℤ) - 1 → InBounds (seekBackward s)) := by
  refine ⟨⟨?_, ?_⟩, ⟨?_, ?_⟩, ?_, ?_, ?_⟩
  · simp [selectRide]
  · simp only [selectRide]
    omega
  · simp only [seekForward]
    omega
  · simp only [seekForward]
    omega
  · simp only [clampIndex]
    split
    · constructor <;> simp <;> omega
    · exact ⟨hlo, by omega⟩
  · simp only [autoTick]
    split
    · constructor <;> simp <;> omega
    · constructor <;> simp <;> omega
  · intro hhi
    refine ⟨?_, ?_⟩ <;> simp only [seekBackward] <;> omega

theorem C9_route_index_bounds_witness :
    ((0 : ℕ) < 50 ∧ (0 : ℕ) < 100 ∧ (0 : ℤ) ≤ 150 ∧ (0 : ℤ) ≤ 5 ∧
      (5 : ℤ) ≤ ((100 : ℕ) : ℤ) - 1) ∧
    (InBounds (selectRide 50) ∧
      InBounds (seekForward ⟨100, 150⟩) ∧
      InBounds (clampIndex ⟨100, 150⟩) ∧
      InBounds (autoTick ⟨100, 150⟩) ∧
      ((150 : ℤ) ≤ ((100 : ℕ) : ℤ) - 1 → InBounds (seekBackward ⟨100, 150⟩))) ∧
    InBounds (seekBackward ⟨100, 5⟩) :=
  ⟨⟨by decide, by decide, by decide, by decide, by decide⟩,
    C9_route_index_bounds ⟨100, 150⟩ 50 (by decide) (by decide) (by decide),
    (C9_route_index_bounds ⟨100, 5⟩ 50 (by decide) (by decide) (by decide)).2.2.2.2
      (by decide)⟩

/-- A JavaScript number-or-absent value as the route points may carry at
runtime: null/undefined, NaN, or an actual number. -/
inductive JSNum where
  | nullish : JSNum
  | nan : JSNum
  | num : ℚ → JSNum
  deriving DecidableEq, Repr

/-- The geometry-relevant fields of a route point as the map components
receive them. -/
structure RPoint where
  lat : JSNum
  lon : JSNum
  deriving DecidableEq, Repr

/-- Embedded from src/unnamed/part_001 (MapView validRoute filter) and
src/src/components/Dashboard.tsx: keep a point only when lat and lon are
non-null, non-NaN, with lat in [-90, 90] and lon in [-180, 180]. -/
def isValidPoint (p : RPoint) : Bool :=
  match p.lat, p.lon with
  | .num la, .num lo =>
    decide (-90 ≤ la) && decide (la ≤ 90) && decide (-180 ≤ lo) && decide (lo ≤ 180)
  | _, _ => false

/-- The filtered route both map components build before rendering. -/
def validRoute (route : List RPoint) : List RPoint := route.filter isValidPoint

/-- The numeric value of a JSNum; the components only read it from points
that passed the filter. -/
def numVal : JSNum → ℚ
  | .num q => q
  | _ => 0

/-- A GeoJSON coordinate pair [lon, lat] as both components emit it. -/
def coordOf (p : RPoint) : ℚ × ℚ := (numVal p.lon, numVal p.lat)

/-- The LineString coordinates of the rendered route. -/
def lineCoords (route : List RPoint) : List (ℚ × ℚ) := (validRoute route).map coordOf

/-- What MapView renders for a ride: a placeholder message, or the
breadcrumb LineString with start and end markers. -/
inductive MapRender where
  | placeholder : String → MapRender
  | mapped : List (ℚ × ℚ) → ℚ × ℚ → ℚ × ℚ → MapRender
  deriving DecidableEq, Repr

/-- Embedded from src/unnamed/part_001 (MapView): an empty route yields
the no-route placeholder, an all-invalid route yields the no-valid-
coordinates placeholder, otherwise the LineString over the valid points
plus start/end markers at the first and last valid point. -/
def mapViewRender (route : List RPoint) : MapRender :=
  if route.isEmpty then .placeholder "No route data available"
  else
    match (validRoute route).head?, (validRoute route).getLast? with
    | some s, some e => .mapped (lineCoords route) (coordOf s) (coordOf e)
    | _, _ => .placeholder "No valid route coordinates"

/-- Embedded from src/src/components/Dashboard.tsx: a ride whose valid
route is empty renders nothing (null), otherwise its LineString and
start/end markers. -/
def dashboardRenderRide (route : List RPoint) :
    Option (List (ℚ × ℚ) × (ℚ × ℚ) × (ℚ × ℚ)) :=
  match (validRoute route).head?, (validRoute route).getLast? with
  | some s, some e => some (lineCoords route, coordOf s, coordOf e)
  | _, _ => none

/-- A coordinate pair [lon, lat] within WGS84 bounds. -/
def inRangeCoord (c : ℚ × ℚ) : Prop :=
  -180 ≤ c.1 ∧ c.1 ≤ 180 ∧ -90 ≤ c.2 ∧ c.2 ≤ 90

theorem isValidPoint_inRange {p : RPoint} (h : isValidPoint p = true) :
    inRangeCoord (coordOf p) := by
  rcases p with ⟨pla, plo⟩
  cases pla <;> cases plo <;>
    simp only [isValidPoint, Bool.and_eq_true, decide_eq_true_eq] at h <;>
    try exact absurd h (by decide)
  simp only [inRangeCoord, coordOf, numVal]
  tauto

theorem mem_validRoute {p : RPoint} {route : List RPoint}
    (h : p ∈ validRoute route) : p ∈ route ∧ isValidPoint p = true := by
  unfold validRoute at h
  exact ⟨List.mem_of_mem_filter h, List.of_mem_filter h⟩

theorem lineCoords_sound {route : List RPoint} {c : ℚ × ℚ}
    (h : c ∈ lineCoords route) :
    ∃ p ∈ route, isValidPoint p = true ∧ c = coordOf p := by
  unfold lineCoords at h
  obtain ⟨p, hp, rfl⟩ := List.mem_map.mp h
  obtain ⟨hmem, hval⟩ := mem_validRoute hp
  exact ⟨p, hmem, hval, rfl⟩

/-- C10: every coordinate pair placed into a rendered GeoJSON LineString
(MapView and Dashboard alike), as well as the start and end markers, comes
from a route point that passed the validity filter, hence lies within
WGS84 bounds; when no point passes the filter, a placeholder (MapView)
or nothing (Dashboard) is rendered, with no line or markers. -/
theorem C10_rendered_coords_valid (route : List RPoint) :
    (∀ coords s e, mapViewRender route = .mapped coords s e →
      (∀ c ∈ coords, ∃ p ∈ route, isValidPoint p = true ∧ c = coordOf p) ∧
      (∀ c ∈ coords, inRangeCoord c) ∧ inRangeCoord s ∧ inRangeCoord e) ∧
    (validRoute route = [] →
      (mapViewRender route = .placeholder "No route data available" ∨
        mapViewRender route = .placeholder "No valid route coordinates")) ∧
    (∀ coords s e, dashboardRenderRide route = some (coords, s, e) →
      (∀ c ∈ coords, ∃ p ∈ route, isValidPoint p = true ∧ c = coordOf p) ∧
      (∀ c ∈ coords, inRangeCoord c) ∧ inRangeCoord s ∧ inRangeCoord e) ∧
    (validRoute route = [] → dashboardRenderRide route = none) := by
  have hsound : ∀ c ∈ lineCoords route, ∃ p ∈ route, isValidPoint p = true ∧ c = coordOf p :=
    fun c hc => lineCoords_sound hc
  have hrange : ∀ c ∈ lineCoords route, inRangeCoord c := by
    intro c hc
    obtain ⟨p, -, hval, rfl⟩ := lineCoords_sound hc
    exact isValidPoint_inRange hval
  have hhead : ∀ s, (validRoute route).head? = some s → inRangeCoord (coordOf s) := by
    intro s hs
    have hmem : s ∈ validRoute route := List.mem_of_mem_head? (by rw [hs]; rfl)
    exact isValidPoint_inRange (mem_validRoute hmem).2
  have hlast : ∀ e, (validRoute route).getLast? = some e → inRangeCoord (coordOf e) := by
    intro e hl
    have hmem : e ∈ validRoute route := List.mem_of_mem_getLast? (by rw [hl]; rfl)
    exact isValidPoint_inRange (mem_validRoute hmem).2
  refine ⟨?_, ?_, ?_, ?_⟩
  · intro coords s e h
    unfold mapViewRender at h
    split at h
    · exact absurd h (by simp)
    · split at h
      · rename_i s0 e0 hh hl
        simp only [MapRender.mapped.injEq] at h
        obtain ⟨rfl, rfl, rfl⟩ := h
        exact ⟨hsound, hrange, hhead s0 hh, hlast e0 hl⟩
      · exact absurd h (by simp)
  · intro hnil
    unfold mapViewRender
    split
    · left; rfl
    · split
      · rename_i s0 e0 hh hl
        rw [hnil] at hh
        simp at hh
      · right; rfl
  · intro coords s e h
    unfold dashboardRenderRide at h
    split at h
    · rename_i s0 e0 hh hl
      simp only [Option.some.injEq, Prod.mk.injEq] at h
      obtain ⟨rfl, rfl, rfl⟩ := h
      exact ⟨hsound, hrange, hhead s0 hh, hlast e0 hl⟩
    · exact absurd h (by simp)
  · intro hnil
    unfold dashboardRenderRide
    split
    · rename_i s0 e0 hh hl
      rw [hnil] at hh
      simp at hh
    · rfl

/-- A valid sample point: lat 10, lon 20. -/
def pGood : RPoint := ⟨.num 10, .num 20⟩

/-- An invalid sample point: NaN latitude. -/
def pBad : RPoint := ⟨.nan, .num 0⟩

/-- The sample route for the C10 witness. -/
def routeW : List RPoint := [pBad, pGood]

theorem C10_rendered_coords_valid_witness :
    mapViewRender routeW = MapRender.mapped [(20, 10)] (20, 10) (20, 10) ∧
    ((∀ c ∈ [((20 : ℚ), (10 : ℚ))], ∃ p ∈ routeW, isValidPoint p = true ∧ c = coordOf p) ∧
      (∀ c ∈ [((20 : ℚ), (10 : ℚ))], inRangeCoord c) ∧
      inRangeCoord (20, 10) ∧ inRangeCoord (20, 10)) :=
  ⟨by decide,
    (C10_rendered_coords_valid routeW).1 [(20, 10)] (20, 10) (20, 10) (by decide)⟩
